import Mathlib

/-!
Verification of the device-discovery and selection subsystem of the
rn-control-panel repository: the text parsers that turn captured tool output
into device records (iOS `listDevices` in the iOS module, Android `listDevices`
in the Android module), the simulator deduplicator
(`Utils.filterSimulatorsByHighestOSVersion`), and the interactive selectors
(`selectDevice` / `promptForDeviceSelection`).

The TypeScript code is shallowly embedded: strings are Lean `String`s
(internally worked on as `List Char`), the hand-written regular expressions are
embedded as deterministic backtracking matchers that follow the JS regex
engine's leftmost/greedy/lazy behaviour on the shapes the code uses, JS
`Array.prototype.sort` (required stable by the spec) is modelled with the
stable `List.mergeSort`, and external effects (command execution, readline
questions, console output) are modelled as explicit inputs (`Except` results,
scripted input lists) and an explicit list of console events.
-/

namespace RNControl

/-- JS whitespace (`\s`), restricted to the characters that can actually occur
in tool output; used by `trim`, `\s` in the regexes, and `parseInt` skipping. -/
def isWS (c : Char) : Bool :=
  c = ' ' || c = '\t' || c = '\n' || c = '\r' || c = '\x0b' || c = '\x0c'

/-- Characters matched by the regex class `[0-9.]`. -/
def verChar (c : Char) : Bool := c.isDigit || c = '.'

/-- Characters matched by the regex `.` (anything but line terminators). -/
def dotChar (c : Char) : Bool := !(c = '\n' || c = '\r' || c = '\u2028' || c = '\u2029')

/-- JS `String.prototype.trim` on a character list. -/
def jsTrim (cs : List Char) : List Char :=
  ((cs.dropWhile isWS).reverse.dropWhile isWS).reverse

/-- Auxiliary state-threading loop for `splitOnChar`. -/
def splitOnCharAux (sep : Char) : List Char → List Char → List (List Char)
  | acc, [] => [acc.reverse]
  | acc, c :: rest =>
    if c = sep then acc.reverse :: splitOnCharAux sep [] rest
    else splitOnCharAux sep (c :: acc) rest

/-- JS `String.prototype.split` with a single-character separator. -/
def splitOnChar (sep : Char) (cs : List Char) : List (List Char) :=
  splitOnCharAux sep [] cs

/-- Lower-case a character list (JS `toLowerCase`, ASCII-faithful). -/
def lowerList (cs : List Char) : List Char := cs.map Char.toLower

/-- Lower-case a string (JS `toLowerCase`, ASCII-faithful). -/
def toLowerStr (s : String) : String := (lowerList s.toList).asString

/-- JS `String.prototype.includes` on character lists. -/
def containsSub (hay needle : List Char) : Bool :=
  if needle.isPrefixOf hay then true
  else
    match hay with
    | [] => false
    | _ :: rest => containsSub rest needle

/-- Decimal value of a digit run, as computed by JS `Number`/`parseInt` on an
all-digit string; the empty run yields 0 (as JS `Number('')` does). -/
def digitsVal (cs : List Char) : Nat :=
  cs.foldl (fun a c => a * 10 + (c.toNat - '0'.toNat)) 0

/-- JS `parseInt(s, 10)`: skip leading whitespace, optional sign, then the
longest leading digit run; `none` models `NaN`. -/
def parseIntBase10 (cs : List Char) : Option Int :=
  let cs := cs.dropWhile isWS
  match cs with
  | '-' :: rest =>
    let ds := rest.takeWhile Char.isDigit
    if ds.isEmpty then none else some (-(digitsVal ds : Int))
  | '+' :: rest =>
    let ds := rest.takeWhile Char.isDigit
    if ds.isEmpty then none else some (digitsVal ds : Int)
  | _ =>
    let ds := cs.takeWhile Char.isDigit
    if ds.isEmpty then none else some (digitsVal ds : Int)

/-- Characters accepted by JS `parseInt` in base 16. -/
def hexDigit (c : Char) : Bool :=
  c.isDigit || ('a' ≤ c && c ≤ 'f') || ('A' ≤ c && c ≤ 'F')

/-- Hex value of a hex-digit run. -/
def hexVal (cs : List Char) : Nat :=
  cs.foldl (fun a c =>
    a * 16 + (if c.isDigit then c.toNat - '0'.toNat
              else if 'a' ≤ c then c.toNat - 'a'.toNat + 10
              else c.toNat - 'A'.toNat + 10)) 0

/-- Unsigned part of JS `parseInt(s)` with no radix argument: a `0x`/`0X`
prefix switches to base 16, otherwise base 10. -/
def parseIntDefaultMag (cs : List Char) : Option Nat :=
  match cs with
  | '0' :: 'x' :: rest =>
    let ds := rest.takeWhile hexDigit
    if ds.isEmpty then none else some (hexVal ds)
  | '0' :: 'X' :: rest =>
    let ds := rest.takeWhile hexDigit
    if ds.isEmpty then none else some (hexVal ds)
  | _ =>
    let ds := cs.takeWhile Char.isDigit
    if ds.isEmpty then none else some (digitsVal ds)

/-- JS `parseInt(s)` with the default radix; `none` models `NaN`. -/
def parseIntDefault (cs : List Char) : Option Int :=
  let cs := cs.dropWhile isWS
  match cs with
  | '-' :: rest => (parseIntDefaultMag rest).map (fun n => -(n : Int))
  | '+' :: rest => (parseIntDefaultMag rest).map (fun n => (n : Int))
  | _ => (parseIntDefaultMag cs).map (fun n => (n : Int))

/-- Device categories, the values of the TS `category` string field. -/
inductive Category where
  | physicalDevices
  | offlineDevices
  | simulators
  deriving DecidableEq, Repr

/-- The TS `DeviceInfo` record. -/
structure DeviceInfo where
  id : String
  name : String
  category : Category
  osVersion : Option String := none
  platform : Option String := none
  modelName : Option String := none
  deriving DecidableEq, Repr

/-- The TS `CategorizedDevices` record returned by the iOS `listDevices`. -/
structure CategorizedDevices where
  physicalDevices : List DeviceInfo := []
  offlineDevices : List DeviceInfo := []
  simulators : List DeviceInfo := []
  deriving DecidableEq, Repr

/-- Match `\(([0-9.]+)\)` anchored at the current position: an opening paren,
a non-empty greedy `[0-9.]` run, a closing paren; returns the run and the
remaining characters. -/
def matchVersionAt (cs : List Char) : Option (List Char × List Char) :=
  match cs with
  | [] => none
  | c :: rest =>
    if c = '(' then
      let run := rest.takeWhile verChar
      if run.isEmpty then none
      else
        let rest2 := rest.drop run.length
        if rest2.head? = some ')' then some (run, rest2.tail) else none
    else none

/-- Match `([^)]+)\)` against the whole remaining input (the regexes below
use it right before `$`): the input must be a non-empty run free of closing
parens followed by a single final closing paren. -/
def closeParenEnd (cs : List Char) : Option (List Char) :=
  if cs.reverse.head? = some ')' then
    let mid := cs.reverse.tail.reverse
    if mid.isEmpty || mid.any (fun ch => ch = ')') then none else some mid
  else none

/-- Match `\(([^)]+)\)$` against the whole remaining input. -/
def matchIdEnd (cs : List Char) : Option (List Char) :=
  match cs with
  | [] => none
  | c :: rest => if c = '(' then closeParenEnd rest else none

/-- Match `\s+\(([^)]+)\)$` against the whole remaining input.  The greedy
`\s+` is forced: only consuming the entire whitespace run can put the
mandatory `\(` right after it. -/
def tryWs2Id (cs : List Char) : Option (List Char) :=
  let ws := cs.takeWhile isWS
  if ws.isEmpty then none else matchIdEnd (cs.drop ws.length)

/-- Match `\s+(\([0-9.]+\))?\s+\(([^)]+)\)$` against the whole remaining
input, following the JS backtracking order: the first `\s+` greedily takes
the whole whitespace run and the optional version group is tried there; if
that path fails the version group is skipped, which forces the two mandatory
`\s+` to split the same whitespace run, so it must have length at least 2
and the id group must start right after it. -/
def matchAfterName (cs : List Char) : Option (Option (List Char) × List Char) :=
  let ws := cs.takeWhile isWS
  let cs1 := cs.drop ws.length
  if ws.isEmpty then none
  else
    let fallback : Option (Option (List Char) × List Char) :=
      if 2 ≤ ws.length then (matchIdEnd cs1).map (fun i => (none, i)) else none
    match matchVersionAt cs1 with
    | some (v, cs2) =>
      match tryWs2Id cs2 with
      | some i => some (some v, i)
      | none => fallback
    | none => fallback

/-- The lazy `^(.+?)` scan of the standard-format regex: try each non-empty
prefix of the line as the name group, shortest first, and at each split
attempt the rest of the pattern. -/
def findStandard (acc : List Char) : List Char → Option (List Char × Option (List Char) × List Char)
  | [] => none
  | c :: rest =>
    if dotChar c then
      match matchAfterName rest with
      | some (v, i) => some (acc ++ [c], v, i)
      | none => findStandard (acc ++ [c]) rest
    else none

/-- The standard-format regex of the iOS `listDevices`:
`^(.+?)\s+(\([0-9.]+\))?\s+\(([^)]+)\)$`.  Returns (name group, optional
version group content, id group). -/
def matchStandard (cs : List Char) : Option (List Char × Option (List Char) × List Char) :=
  findStandard [] cs

/-- First match of `<key>([^<stop>]+)` in a line: scan positions left to
right; where the key occurs and is followed by at least one character kept by
`keep`, capture the greedy `keep` run. -/
def searchKey (key : List Char) (keep : Char → Bool) : List Char → Option (List Char)
  | [] => none
  | c :: rest =>
    if key.isPrefixOf (c :: rest) then
      let run := ((c :: rest).drop key.length).takeWhile keep
      if run.isEmpty then searchKey key keep rest else some run
    else searchKey key keep rest

/-- First match of `\(([0-9.]+)\)` anywhere in a line (the separate
`osMatch` of the simple simulator format). -/
def firstParenVersion : List Char → Option (List Char)
  | [] => none
  | c :: rest =>
    if c = '(' then
      let run := rest.takeWhile verChar
      if run.isEmpty then firstParenVersion rest
      else
        match rest.drop run.length with
        | ')' :: _ => some run
        | _ => firstParenVersion rest
    else firstParenVersion rest

/-- Tail of the simple simulator format after the lazily matched name:
the literal ` Simulator (`, a version run, `) (`, the id group, `)`, end;
returns (version run, id group). -/
def simpleAfter (cs : List Char) : Option (List Char × List Char) :=
  if (" Simulator (".toList).isPrefixOf cs then
    let cs1 := cs.drop 12
    let run := cs1.takeWhile verChar
    if run.isEmpty then none
    else
      let cs2 := cs1.drop run.length
      if (") (".toList).isPrefixOf cs2 then closeParenEnd (cs2.drop 3) |>.map (fun i => (run, i))
      else none
  else none

/-- The lazy name scan of the simple simulator regex
`^(.+?) Simulator \([0-9.]+\) \(([^)]+)\)$`. -/
def findSimple (acc : List Char) : List Char → Option (List Char × List Char × List Char)
  | [] => none
  | c :: rest =>
    if dotChar c then
      match simpleAfter rest with
      | some (v, i) => some (acc ++ [c], v, i)
      | none => findSimple (acc ++ [c]) rest
    else none

/-- One trimmed line of `xcrun xctrace list devices` output, parsed under the
current category: the three line grammars of the iOS `listDevices`, tried in
source order (standard, then brace/key-value, then simple simulator). -/
def parseLine (c : Category) (t : List Char) : Option DeviceInfo :=
  match matchStandard t with
  | some (g1, v, g3) =>
    some { name := (jsTrim g1).asString, id := (jsTrim g3).asString,
           category := c, osVersion := v.map List.asString }
  | none =>
    if containsSub t "platform:".toList && containsSub t "OS:".toList
        && containsSub t "name:".toList then
      match searchKey "platform:".toList (fun ch => ch ≠ ',') t,
            searchKey "id:".toList (fun ch => ch ≠ ',') t,
            searchKey "OS:".toList verChar t,
            searchKey "name:".toList (fun ch => ch ≠ '}') t with
      | some p, some i, some o, some n =>
        some { platform := some (jsTrim p).asString, id := (jsTrim i).asString,
               osVersion := some (jsTrim o).asString, name := (jsTrim n).asString,
               category := c }
      | _, _, _, _ => none
    else
      match findSimple [] t with
      | some (g1, _, g2) =>
        some { name := ((jsTrim g1).asString) ++ " Simulator", id := (jsTrim g2).asString,
               category := c,
               osVersion := (firstParenVersion t).map List.asString }
      | none => none

/-- Section-marker handling of the iOS `listDevices` line loop: a trimmed
line starting with `==` may switch the current category; an unrecognized
marker leaves it unchanged (the line is consumed either way). -/
def markerUpdate (t : List Char) (cur : Option Category) : Option Category :=
  if t.asString = "== Devices ==" then some .physicalDevices
  else if t.asString = "== Devices Offline ==" then some .offlineDevices
  else if containsSub t "Simulator".toList then some .simulators
  else cur

/-- Category-specific inclusion filters applied when a parsed record is
pushed: simulators only when the name contains `iphone` (case-insensitive);
physical devices unless the name contains `macbook` or `ipad`; offline
devices unconditionally. -/
def pushDevice (cats : CategorizedDevices) (c : Category) (d : DeviceInfo) : CategorizedDevices :=
  let lowered := lowerList d.name.toList
  match c with
  | .simulators =>
    if containsSub lowered "iphone".toList then
      { cats with simulators := cats.simulators ++ [d] }
    else cats
  | .physicalDevices =>
    if !containsSub lowered "macbook".toList && !containsSub lowered "ipad".toList then
      { cats with physicalDevices := cats.physicalDevices ++ [d] }
    else cats
  | .offlineDevices => { cats with offlineDevices := cats.offlineDevices ++ [d] }

/-- One iteration of the iOS `listDevices` line loop. -/
def iosProcessLine (st : Option Category × CategorizedDevices) (line : List Char) :
    Option Category × CategorizedDevices :=
  let t := jsTrim line
  if ("==".toList).isPrefixOf t then (markerUpdate t st.1, st.2)
  else if t.isEmpty then st
  else
    match st.1 with
    | none => st
    | some c =>
      match parseLine c t with
      | none => st
      | some d => (st.1, pushDevice st.2 c d)

/-- JS `Number` applied to the dot-separated components of a version string
(`osVersion!.split('.').map(Number)`), faithful for digit/dot version
strings (each component is then a pure digit run, possibly empty). -/
def versionParts (v : String) : List Nat :=
  (splitOnChar '.' v.toList).map digitsVal

/-- The version comparator of `filterSimulatorsByHighestOSVersion`, phrased
as the `le` relation of the stable sort it performs: `partsGe a b` holds iff
the descending comparator orders `a` no later than `b`, i.e. iff `a ≥ b`
component-wise left to right with missing trailing components read as 0
(an exhausted side is a run of zeros: against `[]` the other side wins iff it
still has a non-zero component). -/
def partsGe : List Nat → List Nat → Bool
  | [], ys => ys.all (fun b => b = 0)
  | _ :: _, [] => true
  | a :: as, b :: bs => if a = b then partsGe as bs else decide (b < a)

/-- The OS-version extraction fallback of
`filterSimulatorsByHighestOSVersion` for records without a (truthy)
`osVersion` field: first `/OS:([0-9.]+)/i` on the id, then, if the version is
still `'0'`, the first `\(([0-9.]+)\)` in the name. -/
def extractFallback (s : DeviceInfo) : String :=
  let fromId :=
    match searchKey "os:".toList verChar (lowerList s.id.toList) with
    | some run => run.asString
    | none => "0"
  if fromId = "0" then
    match firstParenVersion s.name.toList with
    | some run => run.asString
    | none => "0"
  else fromId

/-- OS version used for ranking a simulator record: the `osVersion` field if
present and non-empty (JS truthiness), else the extraction fallback. -/
def extractOSVersion (s : DeviceInfo) : String :=
  match s.osVersion with
  | some v => if v ≠ "" then v else extractFallback s
  | none => extractFallback s

/-- Strip a trailing `/\s+Simulator$/i` from a name. -/
def stripSimulatorSuffix (cs : List Char) : List Char :=
  let r := cs.reverse
  if (r.take 9).map Char.toLower = "rotalumis".toList then
    let r1 := r.drop 9
    if (r1.takeWhile isWS).isEmpty then cs else (r1.dropWhile isWS).reverse
  else cs

/-- Strip a trailing `/\s*\([0-9.]+\)\s*$/` from a name. -/
def stripVersionSuffix (cs : List Char) : List Char :=
  let r1 := cs.reverse.dropWhile isWS
  match r1 with
  | ')' :: r2 =>
    let run := r2.takeWhile verChar
    if run.isEmpty then cs
    else
      match r2.drop run.length with
      | '(' :: r3 => (r3.dropWhile isWS).reverse
      | _ => cs
  | _ => cs

/-- The model-name grouping key: name with the trailing `Simulator` word
stripped first, then a trailing parenthesized version stripped. -/
def modelNameOf (name : String) : String :=
  (stripVersionSuffix (stripSimulatorSuffix name.toList)).asString

/-- The record pushed into a model group: the original simulator with its
extracted `osVersion` and derived `modelName` filled in. -/
def updateSim (s : DeviceInfo) : DeviceInfo :=
  { s with osVersion := some (extractOSVersion s), modelName := some (modelNameOf s.name) }

/-- The sort relation used inside each model group (descending by version,
stable): `recGe a b` iff the comparator puts `a` no later than `b`. -/
def recGe (a b : DeviceInfo) : Bool :=
  partsGe (versionParts (a.osVersion.getD "0")) (versionParts (b.osVersion.getD "0"))

/-- Model-name keys in first-insertion order, as enumerated over the string
keys of the JS `modelGroups` object. -/
def keysInOrderGo (seen : List String) : List String → List String
  | [] => []
  | k :: ks => if k ∈ seen then keysInOrderGo seen ks else k :: keysInOrderGo (k :: seen) ks

/-- Distinct values of a list in order of first occurrence. -/
def keysInOrder (l : List String) : List String := keysInOrderGo [] l

/-- `Utils.filterSimulatorsByHighestOSVersion`: group by derived model name,
sort each group descending by component-wise version (stably), and keep each
group's first element. -/
def filterSimulatorsByHighestOSVersion (sims : List DeviceInfo) : List DeviceInfo :=
  let recs := sims.map updateSim
  let keys := keysInOrder (recs.map (fun r => r.modelName.getD ""))
  keys.flatMap (fun k =>
    let group := recs.filter (fun r => r.modelName.getD "" = k)
    match group.mergeSort recGe with
    | [] => []
    | w :: _ => [w])

/-- Body of the iOS `listDevices` after a successful command: split the
captured output on newlines, run the section/line state machine, then
deduplicate the simulators (only when any were collected). -/
def iosParseOutput (raw : String) : CategorizedDevices :=
  let lines := splitOnChar '\n' raw.toList
  let cats := (lines.foldl iosProcessLine ((none : Option Category), {})).2
  if cats.simulators.length > 0 then
    { cats with simulators := filterSimulatorsByHighestOSVersion cats.simulators }
  else cats

/-- The iOS `listDevices`, as a function of the captured output of the
device-listing command: a failed invocation (the `catch` branch) yields the
all-empty categorized result instead of propagating the exception. -/
def iosListDevices (res : Except String String) : CategorizedDevices :=
  match res with
  | .ok raw => iosParseOutput raw
  | .error _ => {}

/-- The per-line regex of the Android `listDevices`:
`^([^\s]+)\s+device\s+(.*)$`; returns (identifier, freeform details).  The
greedy runs are forced by the following mandatory whitespace / literal. -/
def adbMatch (cs : List Char) : Option (List Char × List Char) :=
  let id := cs.takeWhile (fun c => !isWS c)
  if id.isEmpty then none
  else
    let r1 := cs.drop id.length
    let ws1 := r1.takeWhile isWS
    if ws1.isEmpty then none
    else
      let r2 := r1.drop ws1.length
      if ("device".toList).isPrefixOf r2 then
        let r3 := r2.drop 6
        let ws2 := r3.takeWhile isWS
        if ws2.isEmpty then none
        else
          let rest := r3.drop ws2.length
          if rest.all dotChar then some (id, rest) else none
      else none

/-- One non-blank line of `adb devices -l` output turned into a record: the
id is the first column, the display name comes from a `model:<token>`
fragment with underscores replaced by spaces, else the placeholder. -/
def adbLineRecord (line : List Char) : Option DeviceInfo :=
  if (jsTrim line).isEmpty then none
  else
    match adbMatch line with
    | none => none
    | some (id, details) =>
      let name :=
        match searchKey "model:".toList (fun c => !isWS c) details with
        | some run => (run.map (fun c => if c = '_' then ' ' else c)).asString
        | none => "Android Device"
      some { id := id.asString, name := name, category := .physicalDevices }

/-- The `adb devices -l` half of the Android `listDevices`: split on
newlines, drop the first line (the header), parse the rest. -/
def parseAdbOutput (raw : String) : List DeviceInfo :=
  ((splitOnChar '\n' raw.toList).drop 1).filterMap adbLineRecord

/-- The `emulator -list-avds` half of the Android `listDevices`: every
non-blank line becomes a simulator record with a synthesized id. -/
def parseEmuOutput (raw : String) : List DeviceInfo :=
  (splitOnChar '\n' raw.toList).filterMap (fun l =>
    let t := jsTrim l
    if t.isEmpty then none
    else some { id := ("emulator-".toList ++ t).asString, name := t.asString,
                category := Category.simulators })

/-- The Android `listDevices`, as a function of the two captured command
outputs; any command failure lands in the `catch` branch and yields `[]`
instead of propagating the exception. -/
def androidListDevices (adbRes emuRes : Except String String) : List DeviceInfo :=
  match adbRes, emuRes with
  | .ok adb, .ok emu => parseAdbOutput adb ++ parseEmuOutput emu
  | _, _ => []

/-- A device record carrying the ephemeral 1-based selection index (the TS
spread `{ ...device, index }`). -/
structure IndexedDevice where
  device : DeviceInfo
  index : Nat
  deriving DecidableEq, Repr

/-- Console output of the selectors, one constructor per `console.log`
shape that the selection protocol emits. -/
inductive ConsoleEvent where
  | header (s : String)
  | deviceLine (index : Nat) (name id : String)
  | emulatorLine (index : Nat) (name : String)
  | offlineLine (name id : String)
  | noPhysicalMsg
  | noDevicesMsg
  | promptShown
  | invalidMsg (count : Nat)
  | maxAttemptsMsg
  | selectedMsg (name : String)
  | selectionError
  | defaultEmulatorMsg
  deriving DecidableEq, Repr

/-- Assign consecutive 1-based indices starting at `start` (the
`deviceCounter` loop of the iOS `selectDevice`). -/
def assignIndices (ds : List DeviceInfo) (start : Nat) : List IndexedDevice :=
  match ds with
  | [] => []
  | d :: rest => ⟨d, start⟩ :: assignIndices rest (start + 1)

/-- The selectable list built by the iOS `selectDevice`: physical devices
first, then the simulators whose name contains `iphone` (case-insensitive),
with one continuous counter starting at 1. -/
def iosBuildSelectable (cats : CategorizedDevices) : List IndexedDevice :=
  assignIndices cats.physicalDevices 1 ++
    assignIndices (cats.simulators.filter (fun d => containsSub (lowerList d.name.toList) "iphone".toList))
      (1 + cats.physicalDevices.length)

/-- Display lines for a list of indexed devices. -/
def deviceLineEvents (ds : List IndexedDevice) : List ConsoleEvent :=
  ds.map (fun d => .deviceLine d.index d.device.name d.device.id)

/-- Console output of the iOS `selectDevice` render pass (lines 199-236 of
the iOS module): physical devices, offline devices (listed, never indexed),
then iPhone simulators, numbered continuously. -/
def iosRenderEvents (cats : CategorizedDevices) : List ConsoleEvent :=
  let phys := assignIndices cats.physicalDevices 1
  let simsF := assignIndices
    (cats.simulators.filter (fun d => containsSub (lowerList d.name.toList) "iphone".toList))
    (1 + cats.physicalDevices.length)
  [.header "== Devices =="]
    ++ (if cats.physicalDevices.length > 0 then deviceLineEvents phys else [.noPhysicalMsg])
    ++ (if cats.offlineDevices.length > 0 then
          .header "== Devices Offline ==" :: cats.offlineDevices.map (fun d => .offlineLine d.name d.id)
        else [])
    ++ (if cats.simulators.length > 0 then
          .header "== Simulators ==" :: deviceLineEvents simsF
        else [])

/-- Console output of the re-display performed after three consecutive
invalid attempts (lines 288-311 of the iOS module). -/
def redisplayEvents (all : List IndexedDevice) : List ConsoleEvent :=
  let phys := all.filter (fun d => d.device.category = Category.physicalDevices)
  let sims := all.filter (fun d => d.device.category = Category.simulators)
  [.header "== Devices =="]
    ++ (if phys.length > 0 then deviceLineEvents phys else [.noPhysicalMsg])
    ++ (.header "== Simulators ==" :: deviceLineEvents sims)

/-- Resolution of one answer inside `promptForDeviceSelection`:
`parseInt(answer.trim(), 10)` followed by the index lookup; `none` means the
answer counts as an invalid attempt. -/
def iosResolve (all : List IndexedDevice) (ans : String) : Option IndexedDevice :=
  match parseIntBase10 (jsTrim ans.toList) with
  | none => none
  | some idx => all.find? (fun d => (d.index : Int) = idx)

/-- The `promptForDeviceSelection` loop over a script of input lines: each
iteration asks one question; an invalid answer bumps the attempt counter,
and on the third consecutive failure the counter resets and the list is
re-displayed.  An exhausted input script models the readline question
failing, which the `catch` turns into a `null` resolution. -/
def promptLoop (all : List IndexedDevice) (attempts : Nat) (inputs : List String) :
    Option IndexedDevice × List ConsoleEvent :=
  if 3 ≤ attempts then (none, [])
  else
    match inputs with
    | [] => (none, [.promptShown, .selectionError])
    | ans :: rest =>
      match iosResolve all ans with
      | some d => (some d, [.promptShown, .selectedMsg d.device.name])
      | none =>
        if 3 ≤ attempts + 1 then
          let r := promptLoop all 0 rest
          (r.1, .promptShown :: .invalidMsg all.length :: .maxAttemptsMsg ::
            (redisplayEvents all ++ r.2))
        else
          let r := promptLoop all (attempts + 1) rest
          (r.1, .promptShown :: .invalidMsg all.length :: r.2)

/-- The attempt counter carried from one invalid answer to the next
(reset to 0 on the third consecutive failure). -/
def nextAttempts (a : Nat) : Nat := if 3 ≤ a + 1 then 0 else a + 1

/-- The iOS `selectDevice`: render the categorized lists, resolve `null`
immediately when nothing is selectable, otherwise run the prompt loop. -/
def iosSelectDevice (cats : CategorizedDevices) (inputs : List String) :
    Option IndexedDevice × List ConsoleEvent :=
  let all := iosBuildSelectable cats
  if all.length = 0 then (none, iosRenderEvents cats ++ [.noDevicesMsg])
  else
    let r := promptLoop all 0 inputs
    (r.1, iosRenderEvents cats ++ r.2)

/-- Console output of the Android `selectDevice` render pass (lines 171-190
of the Android module). -/
def androidRenderEvents (devices : List DeviceInfo) : List ConsoleEvent :=
  let phys := devices.filter (fun d => d.category = Category.physicalDevices)
  let emus := devices.filter (fun d => d.category = Category.simulators)
  [.header "== Android Devices =="]
    ++ (if phys.length > 0 then phys.enum.map (fun p => .deviceLine (p.1 + 1) p.2.name p.2.id)
        else [.noPhysicalMsg])
    ++ (if emus.length > 0 then
          .header "== Emulators ==" :: emus.enum.map (fun p => .emulatorLine (phys.length + p.1 + 1) p.2.name)
        else [])

/-- Whether an answer falls into the invalid branch of the Android
`selectDevice` (`isNaN || < 0 || >= devices.length` on `parseInt(answer)-1`). -/
def androidInvalid (devices : List DeviceInfo) (ans : String) : Bool :=
  match parseIntDefault ans.toList with
  | none => true
  | some n => decide (n - 1 < 0) || decide ((devices.length : Int) ≤ n - 1)

/-- The Android `selectDevice`, as a function of the enumerated device list
and the single answer it reads: `null` with no prompt when no devices exist;
`'e'` (case-insensitive) resolves to the default-emulator sentinel; an
invalid answer logs an inline error and also resolves to the sentinel — the
prompt is never repeated. -/
def androidSelectDevice (devices : List DeviceInfo) (ans : String) :
    Option String × List ConsoleEvent :=
  if devices.length = 0 then (none, [.noDevicesMsg])
  else
    let evs := androidRenderEvents devices ++ [.promptShown]
    if toLowerStr ans = "e" then (some "emulator", evs)
    else
      match parseIntDefault ans.toList with
      | none => (some "emulator", evs ++ [.defaultEmulatorMsg])
      | some n =>
        let i := n - 1
        if i < 0 || (devices.length : Int) ≤ i then
          (some "emulator", evs ++ [.defaultEmulatorMsg])
        else
          let d := devices.getD i.toNat { id := "", name := "", category := .physicalDevices }
          (some d.id, evs ++ [.selectedMsg d.name])

/-! ### Helper lemmas -/

theorem splitOnCharAux_append (sep : Char) (l r acc : List Char) (h : sep ∉ l) :
    splitOnCharAux sep acc (l ++ sep :: r)
      = (acc.reverse ++ l) :: splitOnCharAux sep [] r := by
  induction l generalizing acc with
  | nil => simp [splitOnCharAux]
  | cons c cs ih =>
    have hc : c ≠ sep := by intro e; exact h (e ▸ List.mem_cons_self c cs)
    have hcs : sep ∉ cs := fun m => h (List.mem_cons_of_mem c m)
    simp only [List.cons_append, splitOnCharAux, if_neg hc, List.append_eq]
    rw [ih (c :: acc) hcs]
    simp

theorem splitOnChar_append (sep : Char) (l r : List Char) (h : sep ∉ l) :
    splitOnChar sep (l ++ sep :: r) = l :: splitOnChar sep r := by
  unfold splitOnChar
  rw [splitOnCharAux_append sep l r [] h]
  simp

/-! ### C4: enumeration failure degrades to an all-empty result -/

/-- C4. If the external device-listing command fails, `listDevices` returns
the all-empty result for every category (the `catch` branches are total
functions into `{physicalDevices := [], offlineDevices := [], simulators := []}`
for iOS and `[]` for Android, never a propagated exception), and an empty
captured output string likewise yields the all-empty categorized result. -/
theorem listDevices_failure_yields_empty :
    (∀ e : String, iosListDevices (.error e) = ⟨[], [], []⟩)
    ∧ iosListDevices (.ok "") = ⟨[], [], []⟩
    ∧ (∀ (e : String) (r : Except String String), androidListDevices (.error e) r = [])
    ∧ (∀ (a : Except String String) (e : String), androidListDevices a (.error e) = [])
    ∧ androidListDevices (.ok "") (.ok "") = [] := by
  refine ⟨fun e => rfl, by decide, fun e r => rfl, fun a e => ?_, by decide⟩
  cases a <;> rfl

/-! ### C7: the Parser A example line, and the discarded header line -/

/-- C7 counterexample. The captured adb output consisting of exactly the
line `AB12 device model:iPhone_15` yields no device records at all (the
Android parser discards the first line of the output as a header), refuting
the claim that this captured output yields one PhysicalDevice record. -/
theorem adb_example_line_counterexample :
    androidListDevices (.ok "AB12 device model:iPhone_15") (.ok "") = [] := by
  decide

/-- C7 amended. When the example line `AB12 device model:iPhone_15` appears
after the header line of the captured adb output, parsing yields exactly one
PhysicalDevice record with id `AB12` and name `iPhone 15` (the `model:` token
with underscores replaced by spaces). -/
theorem adb_example_line_after_header :
    androidListDevices (.ok "List of devices attached\nAB12 device model:iPhone_15") (.ok "")
      = [{ id := "AB12", name := "iPhone 15", category := .physicalDevices }] := by
  decide

/-! ### C10: the Android parser unconditionally discards the first line -/

/-- C10. The Android `listDevices` parser discards the first line of the
captured adb output unconditionally: the result on `l0 ++ "\n" ++ rest` does
not depend on `l0` at all (it equals the result with the first line blank),
even when `l0` matches the `<identifier> device <details>` pattern. -/
theorem adb_skips_first_line (l0 rest : String) (h : '\n' ∉ l0.toList) :
    parseAdbOutput (l0 ++ "\n" ++ rest) = parseAdbOutput ("\n" ++ rest) := by
  unfold parseAdbOutput
  have h1 : (l0 ++ "\n" ++ rest).toList = l0.toList ++ '\n' :: rest.toList := by
    have : (l0 ++ "\n" ++ rest).data = l0.data ++ '\n' :: rest.data := by
      simp [String.data_append]
    exact this
  have h2 : ("\n" ++ rest).toList = [] ++ '\n' :: rest.toList := by
    have : ("\n" ++ rest).data = '\n' :: rest.data := by simp [String.data_append]
    simp [this]
  rw [h1, h2, splitOnChar_append _ _ _ h, splitOnChar_append _ _ _ (by simp)]
  simp

/-- C10 witness: the header-skipping theorem applied to the example line that
itself matches the device pattern, with all definitions evaluated. -/
theorem adb_skips_first_line_witness :
    '\n' ∉ ("AB12 device model:iPhone_15").toList
    ∧ parseAdbOutput ("AB12 device model:iPhone_15" ++ "\n" ++ "") = parseAdbOutput ("\n" ++ "") :=
  ⟨by decide, adb_skips_first_line "AB12 device model:iPhone_15" "" (by decide)⟩

/-! ### C6: selector index continuity -/

theorem assignIndices_map_index (ds : List DeviceInfo) (start : Nat) :
    (assignIndices ds start).map (fun d => d.index) = List.range' start ds.length := by
  induction ds generalizing start with
  | nil => simp [assignIndices]
  | cons d rest ih => simp [assignIndices, List.range'_succ, ih]

/-- Indices displayed by a list of render events (offline lines and headers
carry none). -/
def displayedIndices (evs : List ConsoleEvent) : List Nat :=
  evs.filterMap (fun e =>
    match e with
    | .deviceLine i _ _ => some i
    | .emulatorLine i _ => some i
    | _ => none)

theorem displayedIndices_deviceLines (ds : List IndexedDevice) :
    displayedIndices (deviceLineEvents ds) = ds.map (fun d => d.index) := by
  induction ds with
  | nil => rfl
  | cons d rest ih => simp [displayedIndices, deviceLineEvents] at ih ⊢; exact ih

theorem displayedIndices_append (a b : List ConsoleEvent) :
    displayedIndices (a ++ b) = displayedIndices a ++ displayedIndices b := by
  simp [displayedIndices]

theorem enumFrom_deviceLine_indices (l : List DeviceInfo) (k : Nat) :
    displayedIndices ((List.enumFrom k l).map
        (fun p => ConsoleEvent.deviceLine (p.1 + 1) p.2.name p.2.id))
      = List.range' (k + 1) l.length := by
  induction l generalizing k with
  | nil => rfl
  | cons d rest ih =>
    simp only [List.enumFrom, List.map_cons, List.length_cons, List.range'_succ]
    have step : displayedIndices (ConsoleEvent.deviceLine (k + 1) d.name d.id ::
        (List.enumFrom (k + 1) rest).map (fun p => ConsoleEvent.deviceLine (p.1 + 1) p.2.name p.2.id))
        = (k + 1) :: displayedIndices ((List.enumFrom (k + 1) rest).map
            (fun p => ConsoleEvent.deviceLine (p.1 + 1) p.2.name p.2.id)) := rfl
    rw [step, ih (k + 1)]

theorem enumFrom_emulatorLine_indices (l : List DeviceInfo) (k off : Nat) :
    displayedIndices ((List.enumFrom k l).map
        (fun p => ConsoleEvent.emulatorLine (off + p.1 + 1) p.2.name))
      = List.range' (off + k + 1) l.length := by
  induction l generalizing k with
  | nil => rfl
  | cons d rest ih =>
    simp only [List.enumFrom, List.map_cons, List.length_cons, List.range'_succ]
    have step : displayedIndices (ConsoleEvent.emulatorLine (off + k + 1) d.name ::
        (List.enumFrom (k + 1) rest).map (fun p => ConsoleEvent.emulatorLine (off + p.1 + 1) p.2.name))
        = (off + k + 1) :: displayedIndices ((List.enumFrom (k + 1) rest).map
            (fun p => ConsoleEvent.emulatorLine (off + p.1 + 1) p.2.name)) := rfl
    rw [step, ih (k + 1)]
    rfl

/-- C6. During one selection render the indices assigned to selectable
devices form the contiguous sequence 1, 2, …, n with no gaps or repeats,
continuous across categories: on iOS the selectable list (physical devices
then retained iPhone simulators; offline devices receive no index) carries
exactly `List.range' 1 n`, and on Android the displayed numbers (physical
devices then emulators) are likewise `List.range' 1 n`. -/
theorem selector_index_continuity :
    (∀ cats : CategorizedDevices,
      (iosBuildSelectable cats).map (fun d => d.index)
        = List.range' 1 (cats.physicalDevices.length
            + (cats.simulators.filter
                (fun d => containsSub (lowerList d.name.toList) "iphone".toList)).length))
    ∧ (∀ devices : List DeviceInfo,
      displayedIndices (androidRenderEvents devices)
        = List.range' 1 ((devices.filter (fun d => d.category = Category.physicalDevices)).length
            + (devices.filter (fun d => d.category = Category.simulators)).length)) := by
  constructor
  · intro cats
    unfold iosBuildSelectable
    rw [List.map_append, assignIndices_map_index, assignIndices_map_index]
    rw [Nat.add_comm cats.physicalDevices.length
      (cats.simulators.filter
        (fun d => containsSub (lowerList d.name.toList) "iphone".toList)).length]
    exact List.range'_append_1 1 cats.physicalDevices.length _
  · intro devices
    unfold androidRenderEvents
    set phys := devices.filter (fun d => d.category = Category.physicalDevices) with hp
    set emus := devices.filter (fun d => d.category = Category.simulators) with he
    rw [displayedIndices_append, displayedIndices_append]
    have hhdr : displayedIndices [ConsoleEvent.header "== Android Devices =="] = [] := rfl
    rw [hhdr]
    by_cases h1 : phys.length > 0 <;> by_cases h2 : emus.length > 0
    · rw [if_pos h1, if_pos h2]
      have hemu : displayedIndices (ConsoleEvent.header "== Emulators =="
          :: emus.enum.map (fun p => ConsoleEvent.emulatorLine (phys.length + p.1 + 1) p.2.name))
          = displayedIndices (emus.enum.map
              (fun p => ConsoleEvent.emulatorLine (phys.length + p.1 + 1) p.2.name)) := rfl
      have henum : ∀ (l : List DeviceInfo), l.enum = List.enumFrom 0 l := fun _ => rfl
      rw [hemu, henum, henum, enumFrom_deviceLine_indices, enumFrom_emulatorLine_indices]
      have h3 := List.range'_append_1 1 phys.length emus.length
      rw [Nat.add_comm 1 phys.length] at h3
      simp only [List.nil_append, Nat.add_zero, Nat.zero_add]
      rw [Nat.add_comm phys.length emus.length]
      exact h3
    · rw [if_pos h1, if_neg h2]
      have he0 : emus.length = 0 := by omega
      have henum : ∀ (l : List DeviceInfo), l.enum = List.enumFrom 0 l := fun _ => rfl
      have hnil : displayedIndices ([] : List ConsoleEvent) = [] := rfl
      rw [henum, enumFrom_deviceLine_indices, hnil]
      simp [he0]
    · rw [if_neg h1, if_pos h2]
      have hp0 : phys.length = 0 := by omega
      have hnp : displayedIndices [ConsoleEvent.noPhysicalMsg] = [] := rfl
      have hemu : displayedIndices (ConsoleEvent.header "== Emulators =="
          :: emus.enum.map (fun p => ConsoleEvent.emulatorLine (phys.length + p.1 + 1) p.2.name))
          = displayedIndices (emus.enum.map
              (fun p => ConsoleEvent.emulatorLine (phys.length + p.1 + 1) p.2.name)) := rfl
      have henum : ∀ (l : List DeviceInfo), l.enum = List.enumFrom 0 l := fun _ => rfl
      rw [hnp, hemu, henum, enumFrom_emulatorLine_indices]
      simp [hp0]
    · rw [if_neg h1, if_neg h2]
      have hp0 : phys.length = 0 := by omega
      have he0 : emus.length = 0 := by omega
      have hnp : displayedIndices [ConsoleEvent.noPhysicalMsg] = [] := rfl
      have hnil : displayedIndices [] = [] := rfl
      rw [hnp, hnil]
      simp [hp0, he0]

/-! ### Fixtures shared by witnesses and counterexamples -/

/-- A sample physical Android device. -/
def devPixel : DeviceInfo := { id := "X1", name := "Pixel", category := .physicalDevices }

/-- A sample physical iOS device. -/
def devD1 : DeviceInfo := { id := "D1", name := "Dev", category := .physicalDevices }

/-! ### Prompt-loop step lemmas -/

theorem promptLoop_invalid_step (all : List IndexedDevice) (a : Nat) (ans : String)
    (rest : List String) (ha : a < 3) (hinv : iosResolve all ans = none) :
    promptLoop all a (ans :: rest)
      = ((promptLoop all (nextAttempts a) rest).1,
         .promptShown :: .invalidMsg all.length ::
           ((if 3 ≤ a + 1 then .maxAttemptsMsg :: redisplayEvents all else [])
             ++ (promptLoop all (nextAttempts a) rest).2)) := by
  conv_lhs => rw [promptLoop]
  rw [if_neg (by omega)]
  simp only [hinv]
  unfold nextAttempts
  by_cases h : 3 ≤ a + 1
  · simp only [if_pos h, List.cons_append]
  · simp only [if_neg h, List.nil_append]

theorem promptLoop_valid_step (all : List IndexedDevice) (a : Nat) (ans : String)
    (rest : List String) (d : IndexedDevice) (ha : a < 3) (h : iosResolve all ans = some d) :
    promptLoop all a (ans :: rest) = (some d, [.promptShown, .selectedMsg d.device.name]) := by
  conv_lhs => rw [promptLoop]
  rw [if_neg (by omega)]
  simp only [h]

theorem nextAttempts_lt (a : Nat) : nextAttempts a < 3 := by
  unfold nextAttempts
  by_cases h : 3 ≤ a + 1
  · rw [if_pos h]; omega
  · rw [if_neg h]; omega

theorem promptLoop_all_invalid (all : List IndexedDevice) (inputs : List String)
    (h : ∀ i ∈ inputs, iosResolve all i = none) :
    ∀ (a : Nat), a < 3 → ∀ more : List String,
      (promptLoop all a (inputs ++ more)).1
        = (promptLoop all (inputs.foldl (fun x _ => nextAttempts x) a) more).1 := by
  induction inputs with
  | nil => intro a _ more; rfl
  | cons i rest ih =>
    intro a ha more
    have hi : iosResolve all i = none := h i (List.mem_cons_self i rest)
    have hrest : ∀ j ∈ rest, iosResolve all j = none :=
      fun j m => h j (List.mem_cons_of_mem i m)
    rw [List.cons_append, promptLoop_invalid_step all a i (rest ++ more) ha hi]
    exact ih hrest (nextAttempts a) (nextAttempts_lt a) more

/-! ### C2: invalid input handling in the two selectors -/

/-- C2 counterexample.  Two concrete violations of the claim: on Android the
input `zz` (neither a decimal integer matching an index nor the escape token
`e`) does not repeat the prompt — the selector resolves at once to the
default-emulator sentinel; and on iOS the input `1x`, which is not a decimal
integer string, is accepted by `parseInt` and resolves to device 1 instead
of counting as an invalid attempt. -/
theorem selector_invalid_counterexample :
    (androidSelectDevice [devPixel] "zz").1 = some "emulator"
    ∧ (promptLoop [⟨devD1, 1⟩] 0 ["1x"]).1 = some ⟨devD1, 1⟩ := by
  decide

/-- C2 amended.  In the iOS prompt loop, any input whose
`parseInt(answer.trim(), 10)` result is `NaN` or matches no assigned index
counts as an invalid attempt: the inline error is shown and the prompt
repeats (the loop continues with the bumped/reset attempt counter).  In the
Android selector, such an input shows the inline error and then resolves
immediately to the default-emulator sentinel without re-prompting.  (Inputs
whose leading integer prefix does match an index — e.g. `1x` — are accepted
by `parseInt` on both platforms.) -/
theorem selector_invalid_amended :
    (∀ (all : List IndexedDevice) (a : Nat) (ans : String) (rest : List String),
      a < 3 → iosResolve all ans = none →
      promptLoop all a (ans :: rest)
        = ((promptLoop all (nextAttempts a) rest).1,
           .promptShown :: .invalidMsg all.length ::
             ((if 3 ≤ a + 1 then .maxAttemptsMsg :: redisplayEvents all else [])
               ++ (promptLoop all (nextAttempts a) rest).2)))
    ∧ (∀ (devices : List DeviceInfo) (ans : String),
      devices ≠ [] → toLowerStr ans ≠ "e" → androidInvalid devices ans = true →
      androidSelectDevice devices ans
        = (some "emulator", androidRenderEvents devices ++ [.promptShown, .defaultEmulatorMsg])) := by
  constructor
  · exact fun all a ans rest ha h => promptLoop_invalid_step all a ans rest ha h
  · intro devices ans hne he hinv
    unfold androidSelectDevice
    rw [if_neg (by simpa [List.length_eq_zero] using hne), if_neg he]
    unfold androidInvalid at hinv
    cases hpi : parseIntDefault ans.toList with
    | none => simp [hpi]
    | some n =>
      rw [hpi] at hinv
      simp only [hpi]
      rw [if_pos hinv]
      simp

/-- C2 witness: the amended theorem applied to a one-device list with
invalid inputs `x` (iOS) and `zz` (Android). -/
theorem selector_invalid_amended_witness :
    promptLoop [⟨devD1, 1⟩] 0 ["x"]
      = ((promptLoop [⟨devD1, 1⟩] (nextAttempts 0) []).1,
         .promptShown :: .invalidMsg 1 ::
           ((if 3 ≤ 0 + 1 then .maxAttemptsMsg :: redisplayEvents [⟨devD1, 1⟩] else [])
             ++ (promptLoop [⟨devD1, 1⟩] (nextAttempts 0) []).2))
    ∧ androidSelectDevice [devPixel] "zz"
      = (some "emulator", androidRenderEvents [devPixel] ++ [.promptShown, .defaultEmulatorMsg]) :=
  ⟨selector_invalid_amended.1 [⟨devD1, 1⟩] 0 "x" [] (by decide) (by decide),
   selector_invalid_amended.2 [devPixel] "zz" (by decide) (by decide) (by decide)⟩

/-! ### C5: three invalid attempts trigger recovery, never failure -/

/-- C5.  After three consecutive invalid attempts the iOS prompt loop does
not fail: it emits the three inline errors, logs the maximum-attempts
message, re-displays the categorized list, resets the attempt counter to 0
and continues prompting on the remaining input (first conjunct); a valid
index entered after the redisplay still resolves to the corresponding record
(second conjunct); and no run of invalid inputs terminates the loop — after
any all-invalid script the loop continues into the remaining input
(third conjunct). -/
theorem selector_recovery (all : List IndexedDevice) (i1 i2 i3 : String)
    (h1 : iosResolve all i1 = none) (h2 : iosResolve all i2 = none)
    (h3 : iosResolve all i3 = none) :
    (∀ rest : List String,
      promptLoop all 0 (i1 :: i2 :: i3 :: rest)
        = ((promptLoop all 0 rest).1,
           .promptShown :: .invalidMsg all.length :: .promptShown :: .invalidMsg all.length ::
             .promptShown :: .invalidMsg all.length :: .maxAttemptsMsg ::
               (redisplayEvents all ++ (promptLoop all 0 rest).2)))
    ∧ (∀ (v : String) (d : IndexedDevice), iosResolve all v = some d →
        (promptLoop all 0 [i1, i2, i3, v]).1 = some d)
    ∧ (∀ inputs : List String, (∀ i ∈ inputs, iosResolve all i = none) →
        ∀ more : List String,
          (promptLoop all 0 (inputs ++ more)).1
            = (promptLoop all (inputs.foldl (fun x _ => nextAttempts x) 0) more).1) := by
  have key : ∀ rest : List String,
      promptLoop all 0 (i1 :: i2 :: i3 :: rest)
        = ((promptLoop all 0 rest).1,
           .promptShown :: .invalidMsg all.length :: .promptShown :: .invalidMsg all.length ::
             .promptShown :: .invalidMsg all.length :: .maxAttemptsMsg ::
               (redisplayEvents all ++ (promptLoop all 0 rest).2)) := by
    intro rest
    have e1 : nextAttempts 0 = 1 := rfl
    have e2 : nextAttempts 1 = 2 := rfl
    have e3 : nextAttempts 2 = 0 := rfl
    have f1 : ¬ (3 ≤ 0 + 1) := by omega
    have f2 : ¬ (3 ≤ 1 + 1) := by omega
    have f3 : (3 ≤ 2 + 1) := by omega
    rw [promptLoop_invalid_step all 0 i1 (i2 :: i3 :: rest) (by omega) h1, e1,
        promptLoop_invalid_step all 1 i2 (i3 :: rest) (by omega) h2, e2,
        promptLoop_invalid_step all 2 i3 rest (by omega) h3, e3]
    rw [if_neg f1, if_neg f2, if_pos f3]
    simp
  refine ⟨key, ?_, ?_⟩
  · intro v d hv
    rw [key [v], promptLoop_valid_step all 0 v [] d (by omega) hv]
  · intro inputs h more
    exact promptLoop_all_invalid all inputs h 0 (by omega) more

/-- C5 witness: the recovery theorem applied to a one-device list with three
invalid inputs followed by the valid index 1. -/
theorem selector_recovery_witness :
    iosResolve [⟨devD1, 1⟩] "z" = none
    ∧ (promptLoop [⟨devD1, 1⟩] 0 ["z", "z", "z", "1"]).1 = some ⟨devD1, 1⟩ :=
  ⟨by decide,
   (selector_recovery [⟨devD1, 1⟩] "z" "z" "z" (by decide) (by decide) (by decide)).2.1
     "1" ⟨devD1, 1⟩ (by decide)⟩

/-! ### C8: empty selectable set resolves to null without prompting -/

theorem promptShown_not_in_render (cats : CategorizedDevices) :
    ConsoleEvent.promptShown ∉ iosRenderEvents cats := by
  unfold iosRenderEvents
  intro h
  rcases List.mem_append.mp h with h | h
  · rcases List.mem_append.mp h with h | h
    · rcases List.mem_append.mp h with h | h
      · rcases List.mem_cons.mp h with h | h
        · exact ConsoleEvent.noConfusion h
        · simp at h
      · split at h <;> simp_all [deviceLineEvents]
    · split at h <;> simp_all
  · split at h <;> simp_all [deviceLineEvents]

/-- C8.  If nothing is selectable — no physical devices and no retained
(iPhone-named) simulators — the iOS `selectDevice` resolves to `none`
without ever issuing an input prompt, regardless of how many offline devices
exist; likewise the Android `selectDevice` with an empty device list
resolves to `none` without prompting. -/
theorem no_selectable_resolves_null (cats : CategorizedDevices) (inputs : List String)
    (hp : cats.physicalDevices = [])
    (hs : cats.simulators.filter
      (fun d => containsSub (lowerList d.name.toList) "iphone".toList) = []) :
    (iosSelectDevice cats inputs).1 = none
    ∧ ConsoleEvent.promptShown ∉ (iosSelectDevice cats inputs).2
    ∧ (∀ ans : String, (androidSelectDevice [] ans).1 = none
        ∧ ConsoleEvent.promptShown ∉ (androidSelectDevice [] ans).2) := by
  have hall : iosBuildSelectable cats = [] := by
    unfold iosBuildSelectable
    rw [hp, hs]
    rfl
  have heq : iosSelectDevice cats inputs = (none, iosRenderEvents cats ++ [.noDevicesMsg]) := by
    unfold iosSelectDevice
    rw [hall]
    rfl
  refine ⟨by rw [heq], ?_, fun ans => ?_⟩
  · rw [heq]
    intro hmem
    rcases List.mem_append.mp hmem with h | h
    · exact promptShown_not_in_render cats h
    · rcases List.mem_singleton.mp h with h
      exact ConsoleEvent.noConfusion h
  · have ha : androidSelectDevice [] ans = (none, [ConsoleEvent.noDevicesMsg]) := rfl
    rw [ha]
    exact ⟨rfl, by simp⟩

/-- C8 witness: a categorized result with one offline device and one
non-iPhone simulator has an empty selectable set; the selector resolves to
`none` with no prompt shown. -/
theorem no_selectable_resolves_null_witness :
    ((⟨[], [{ id := "ID9", name := "Off1", category := .offlineDevices }],
       [{ id := "W1", name := "Apple Watch", category := .simulators }]⟩ :
        CategorizedDevices).physicalDevices = []
      ∧ (⟨[], [{ id := "ID9", name := "Off1", category := .offlineDevices }],
          [{ id := "W1", name := "Apple Watch", category := .simulators }]⟩ :
           CategorizedDevices).simulators.filter
          (fun d => containsSub (lowerList d.name.toList) "iphone".toList) = [])
    ∧ (iosSelectDevice
        ⟨[], [{ id := "ID9", name := "Off1", category := .offlineDevices }],
         [{ id := "W1", name := "Apple Watch", category := .simulators }]⟩ ["1"]).1 = none :=
  ⟨⟨rfl, by decide⟩,
   (no_selectable_resolves_null _ ["1"] rfl (by decide)).1⟩

/-! ### C3: the standard line grammar -/

theorem closeParenEnd_concat (i : List Char) (hi : i ≠ []) (hic : ')' ∉ i) :
    closeParenEnd (i ++ [')']) = some i := by
  unfold closeParenEnd
  have hrev : (i ++ [')']).reverse = ')' :: i.reverse := by simp
  rw [hrev]
  simp only [List.head?_cons, List.tail_cons, List.reverse_reverse, reduceIte]
  have h1 : i.isEmpty = false := by simpa [List.isEmpty_iff] using hi
  have h2 : (i.any fun ch => ch = ')') = false := by
    rw [List.any_eq_false]
    intro x hx
    simp only [decide_eq_true_eq]
    intro e
    exact hic (e ▸ hx)
  rw [h1, h2]
  rfl

theorem matchIdEnd_exact (i : List Char) (hi : i ≠ []) (hic : ')' ∉ i) :
    matchIdEnd ('(' :: (i ++ [')'])) = some i := by
  have h : matchIdEnd ('(' :: (i ++ [')'])) = closeParenEnd (i ++ [')']) := by
    simp [matchIdEnd]
  rw [h]
  exact closeParenEnd_concat i hi hic

theorem matchIdEnd_ne (c : Char) (t : List Char) (h : c ≠ '(') :
    matchIdEnd (c :: t) = none := by
  simp [matchIdEnd, h]

theorem matchVersionAt_exact (v t : List Char) (hv : v ≠ [])
    (hvc : ∀ ch ∈ v, verChar ch = true) :
    matchVersionAt ('(' :: (v ++ ')' :: t)) = some (v, t) := by
  have hrun : (v ++ ')' :: t).takeWhile verChar = v := by
    rw [List.takeWhile_append_of_pos hvc, List.takeWhile_cons]
    simp [verChar]
  have hisEmpty : v.isEmpty = false := by simpa [List.isEmpty_iff] using hv
  simp only [matchVersionAt, hrun, hisEmpty, Bool.false_eq_true, if_false, if_true,
    List.drop_left, reduceIte, List.head?_cons, List.tail_cons]

theorem matchVersionAt_ne (c : Char) (t : List Char) (h : c ≠ '(') :
    matchVersionAt (c :: t) = none := by
  simp [matchVersionAt, h]

theorem tryWs2Id_space (i : List Char) (hi : i ≠ []) (hic : ')' ∉ i) :
    tryWs2Id (' ' :: '(' :: (i ++ [')'])) = some i := by
  unfold tryWs2Id
  have hws : (' ' :: '(' :: (i ++ [')'])).takeWhile isWS = [' '] := by
    rw [List.takeWhile_cons, List.takeWhile_cons]
    simp [isWS]
  rw [hws]
  simp only [List.isEmpty_cons, Bool.false_eq_true, if_false, List.length_cons,
    List.length_nil, List.drop_succ_cons, List.drop_zero]
  exact matchIdEnd_exact i hi hic

theorem drop_takeWhile_length (p : Char → Bool) (s : List Char) :
    s.drop ((s.takeWhile p).length) = s.dropWhile p := by
  calc s.drop ((s.takeWhile p).length)
      = (s.takeWhile p ++ s.dropWhile p).drop ((s.takeWhile p).length) := by
        rw [List.takeWhile_append_dropWhile]
    _ = s.dropWhile p := List.drop_left _ _

theorem matchVersionAt_notfull (i : List Char) (hic : ')' ∉ i)
    (hnotall : ¬ ∀ ch ∈ i, verChar ch = true) :
    matchVersionAt ('(' :: (i ++ [')'])) = none := by
  have hcond : ¬ ((i.takeWhile verChar).length = i.length) := by
    intro h
    apply hnotall
    intro ch hch
    have heq : i.takeWhile verChar = i := (List.takeWhile_prefix verChar).eq_of_length h
    exact List.mem_takeWhile_imp (heq ▸ hch)
  have hrun : (i ++ [')']).takeWhile verChar = i.takeWhile verChar := by
    rw [List.takeWhile_append, if_neg hcond]
  by_cases hemp : (i.takeWhile verChar).isEmpty = true
  · simp only [matchVersionAt, hrun, hemp, reduceIte, if_true]
  · have hlen : (i.takeWhile verChar).length ≤ i.length :=
      (List.takeWhile_prefix verChar).length_le
    have hdropX : (i ++ [')']).drop ((i.takeWhile verChar).length)
        = i.dropWhile verChar ++ [')'] := by
      rw [List.drop_append_of_le_length hlen, drop_takeWhile_length]
    cases hdw : i.dropWhile verChar with
    | nil =>
      exact absurd (fun ch hch => List.dropWhile_eq_nil_iff.mp hdw ch hch) hnotall
    | cons d tl =>
      have hd_not : verChar d = false := by
        have h := List.head?_dropWhile_not verChar i
        rw [hdw] at h
        simpa using h
      have hd_mem : d ∈ i := (List.dropWhile_sublist verChar).subset
        (by rw [hdw]; exact List.mem_cons_self _ _)
      have hd_ne : d ≠ ')' := fun e => hic (e ▸ hd_mem)
      simp only [matchVersionAt, hrun, hemp, reduceIte, Bool.false_eq_true, if_false,
        hdropX, hdw, List.cons_append, List.head?_cons]
      rw [if_neg (by simpa using hd_ne)]

theorem matchAfterName_nil_ws (s : List Char)
    (h : ∀ ch, s.head? = some ch → isWS ch = false) :
    matchAfterName s = none := by
  cases s with
  | nil => rfl
  | cons a t =>
    have ha := h a rfl
    simp [matchAfterName, List.takeWhile_cons, ha]

theorem matchAfterName_none_of_no_paren (s : List Char) (h : '(' ∉ s) :
    matchAfterName s = none := by
  by_cases hemp : (s.takeWhile isWS).isEmpty = true
  · simp only [matchAfterName, hemp, reduceIte, if_true]
  · simp only [matchAfterName, hemp, Bool.false_eq_true, if_false, reduceIte,
      drop_takeWhile_length]
    cases hdw : s.dropWhile isWS with
    | nil =>
      have hv : matchVersionAt ([] : List Char) = none := rfl
      have hi : matchIdEnd ([] : List Char) = none := rfl
      simp only [hv, hi, Option.map_none']
      split <;> rfl
    | cons d tl =>
      have hd_mem : d ∈ s := (List.dropWhile_sublist isWS).subset
        (by rw [hdw]; exact List.mem_cons_self _ _)
      have hd_ne : d ≠ '(' := fun e => h (e ▸ hd_mem)
      simp only [matchVersionAt_ne d tl hd_ne, matchIdEnd_ne d tl hd_ne, Option.map_none']
      split <;> rfl

theorem matchAfterName_ver (v i : List Char) (hv : v ≠ [])
    (hvc : ∀ ch ∈ v, verChar ch = true) (hi : i ≠ []) (hic : ')' ∉ i) :
    matchAfterName (' ' :: '(' :: (v ++ ')' :: ' ' :: '(' :: (i ++ [')'])))
      = some (some v, i) := by
  have hws : (' ' :: '(' :: (v ++ ')' :: ' ' :: '(' :: (i ++ [')']))).takeWhile isWS
      = [' '] := by
    rw [List.takeWhile_cons, List.takeWhile_cons]
    simp [isWS]
  simp only [matchAfterName, hws, List.isEmpty_cons, Bool.false_eq_true, if_false,
    List.length_cons, List.length_nil, List.drop_succ_cons, List.drop_zero, Nat.zero_add,
    reduceIte]
  rw [matchVersionAt_exact v (' ' :: '(' :: (i ++ [')'])) hv hvc]
  simp only [tryWs2Id_space i hi hic]

theorem matchAfterName_nover (ws i : List Char) (hws : ∀ ch ∈ ws, isWS ch = true)
    (h2 : 2 ≤ ws.length) (hi : i ≠ []) (hic : ')' ∉ i) :
    matchAfterName (ws ++ '(' :: (i ++ [')'])) = some (none, i) := by
  have htk : (ws ++ '(' :: (i ++ [')'])).takeWhile isWS = ws := by
    rw [List.takeWhile_append_of_pos hws, List.takeWhile_cons]
    simp [isWS]
  have hne : ws.isEmpty = false := by
    cases ws with
    | nil => simp at h2
    | cons a t => rfl
  simp only [matchAfterName, htk, hne, Bool.false_eq_true, if_false, List.drop_left,
    if_pos h2]
  rw [matchIdEnd_exact i hi hic]
  by_cases hall : ∀ ch ∈ i, verChar ch = true
  · rw [show matchVersionAt ('(' :: (i ++ [')'])) = some (i, []) from
        matchVersionAt_exact i [] hi hall]
    rfl
  · rw [matchVersionAt_notfull i hic hall]
    rfl

theorem matchAfterName_singlespace (i : List Char) (hic : ')' ∉ i) :
    matchAfterName (' ' :: '(' :: (i ++ [')'])) = none := by
  have hws : (' ' :: '(' :: (i ++ [')'])).takeWhile isWS = [' '] := by
    rw [List.takeWhile_cons, List.takeWhile_cons]
    simp [isWS]
  simp only [matchAfterName, hws, List.isEmpty_cons, Bool.false_eq_true, if_false,
    List.length_cons, List.length_nil, List.drop_succ_cons, List.drop_zero, Nat.zero_add]
  rw [if_neg (by omega)]
  by_cases hi : i = []
  · subst hi
    rfl
  · by_cases hall : ∀ ch ∈ i, verChar ch = true
    · rw [show matchVersionAt ('(' :: (i ++ [')'])) = some (i, []) from
          matchVersionAt_exact i [] hi hall]
      rfl
    · rw [matchVersionAt_notfull i hic hall]

theorem matchAfterName_none_within (s rest : List Char) (hs : s ≠ [])
    (hparen : '(' ∉ s)
    (hlast : ∀ ch, s.getLast? = some ch → isWS ch = false) :
    matchAfterName (s ++ rest) = none := by
  have hdne : s.dropWhile isWS ≠ [] := by
    intro hnil
    have hall := List.dropWhile_eq_nil_iff.mp hnil
    cases s with
    | nil => exact hs rfl
    | cons a t =>
      have hmem : (a :: t).getLast (by simp) ∈ a :: t := List.getLast_mem _
      have hwsLast := hall _ hmem
      have hsome : (a :: t).getLast? = some ((a :: t).getLast (by simp)) :=
        List.getLast?_eq_getLast _ _
      rw [hlast _ hsome] at hwsLast
      exact Bool.false_ne_true hwsLast
  obtain ⟨d, dtl, hd⟩ : ∃ d dtl, s.dropWhile isWS = d :: dtl := by
    cases hcase : s.dropWhile isWS with
    | nil => exact absurd hcase hdne
    | cons d dtl => exact ⟨d, dtl, rfl⟩
  have hd_mem : d ∈ s := (List.dropWhile_sublist isWS).subset
    (by rw [hd]; exact List.mem_cons_self _ _)
  have hd_ne : d ≠ '(' := fun e => hparen (e ▸ hd_mem)
  have hcondlen : ¬ ((s.takeWhile isWS).length = s.length) := by
    intro hlen
    have heq : s.takeWhile isWS = s := (List.takeWhile_prefix isWS).eq_of_length hlen
    have : s.dropWhile isWS = [] := by
      have h0 := drop_takeWhile_length isWS s
      rw [heq] at h0
      simpa using h0.symm
    exact hdne this
  have htk : (s ++ rest).takeWhile isWS = s.takeWhile isWS := by
    rw [List.takeWhile_append, if_neg hcondlen]
  have hdp : (s ++ rest).drop ((s.takeWhile isWS).length) = d :: (dtl ++ rest) := by
    rw [List.drop_append_of_le_length (List.takeWhile_prefix isWS).length_le,
      drop_takeWhile_length, hd]
    rfl
  by_cases hemp : ((s ++ rest).takeWhile isWS).isEmpty = true
  · simp only [matchAfterName, hemp, reduceIte, if_true]
  · simp only [matchAfterName, hemp, Bool.false_eq_true, if_false, htk, hdp]
    simp only [matchVersionAt_ne d (dtl ++ rest) hd_ne,
      matchIdEnd_ne d (dtl ++ rest) hd_ne, Option.map_none']
    simp only [ite_self]

theorem findStandard_through (name : List Char) (sep acc : List Char) (hn : name ≠ [])
    (hd : ∀ ch ∈ name, dotChar ch = true) (hp : '(' ∉ name)
    (hlast : ∀ ch, name.getLast? = some ch → isWS ch = false) :
    findStandard acc (name ++ sep)
      = match matchAfterName sep with
        | some (v, i) => some (acc ++ name, v, i)
        | none => findStandard (acc ++ name) sep := by
  induction name generalizing acc with
  | nil => exact absurd rfl hn
  | cons c t ih =>
    have hdc : dotChar c = true := hd c (List.mem_cons_self c t)
    cases ht : t with
    | nil =>
      subst ht
      simp only [List.cons_append, List.nil_append, findStandard, hdc, if_true, reduceIte,
        List.append_eq]
    | cons b l =>
      have hfail : matchAfterName (t ++ sep) = none := by
        apply matchAfterName_none_within t sep (by rw [ht]; simp)
          (fun m => hp (List.mem_cons_of_mem c m))
        intro ch hch
        apply hlast ch
        rw [ht] at hch ⊢
        rw [List.getLast?_cons_cons]
        exact hch
      rw [← ht]
      have hstep : findStandard acc ((c :: t) ++ sep) = findStandard (acc ++ [c]) (t ++ sep) := by
        simp only [List.cons_append, findStandard, hdc, if_true, reduceIte, List.append_eq]
        rw [hfail]
      rw [hstep, ih (acc ++ [c]) (by rw [ht]; simp)
        (fun ch m => hd ch (List.mem_cons_of_mem c m))
        (fun m => hp (List.mem_cons_of_mem c m))
        (fun ch hch => hlast ch (by
          rw [ht] at hch ⊢
          rw [List.getLast?_cons_cons]
          exact hch))]
      have hacc : acc ++ [c] ++ t = acc ++ c :: t := by simp
      rw [hacc]

theorem findStandard_none_of_no_paren (X : List Char) (acc : List Char) (h : '(' ∉ X) :
    findStandard acc X = none := by
  induction X generalizing acc with
  | nil => rfl
  | cons c t ih =>
    have hfail : matchAfterName t = none :=
      matchAfterName_none_of_no_paren t (fun m => h (List.mem_cons_of_mem c m))
    by_cases hc : dotChar c = true
    · simp only [findStandard, hc, if_true, reduceIte, hfail]
      exact ih (acc ++ [c]) (fun m => h (List.mem_cons_of_mem c m))
    · simp only [findStandard, hc, Bool.false_eq_true, if_false]

theorem jsTrim_eq_self (l : List Char)
    (hh : ∀ ch, l.head? = some ch → isWS ch = false)
    (hl : ∀ ch, l.getLast? = some ch → isWS ch = false) :
    jsTrim l = l := by
  unfold jsTrim
  have h1 : l.dropWhile isWS = l := by
    cases l with
    | nil => rfl
    | cons a t =>
      rw [List.dropWhile_cons]
      simp [hh a rfl]
  rw [h1]
  have h2 : l.reverse.dropWhile isWS = l.reverse := by
    cases hr : l.reverse with
    | nil => rfl
    | cons a t =>
      have ha : l.getLast? = some a := by
        rw [← List.head?_reverse, hr]
        rfl
      rw [List.dropWhile_cons]
      simp [hl a ha]
  rw [h2, List.reverse_reverse]

/-- C3 counterexample.  The line `iPhone (ABC)` has the claimed shape
`<name> (<id>)` with the optional version absent, yet it is not matched by
the standard grammar and produces no device record at all: with the version
group skipped, the regex `^(.+?)\s+(\([0-9.]+\))?\s+\(([^)]+)\)$` still
requires two mandatory whitespace runs between name and id, and a single
space cannot satisfy both. -/
theorem standard_grammar_counterexample :
    matchStandard ("iPhone (ABC)".toList) = none
    ∧ parseLine Category.simulators ("iPhone (ABC)".toList) = none := by
  decide

/-- C3 amended.  For a paren-free name with no edge whitespace, a non-empty
`[0-9.]` version and a non-empty id free of parens and edge whitespace:
a line `<name> (<version>) (<id>)` is matched by the standard grammar and
yields a record with that name, that id and `osVersion` set to the version;
a version-absent line is matched only when name and id are separated by at
least two whitespace characters (here two spaces), yielding the record with
no `osVersion`; and the version-absent line with a single separating space
is not matched by the standard grammar at all. -/
theorem standard_grammar_amended (c : Category) (name ver id : List Char)
    (hn : name ≠ [])
    (hnc : ∀ ch ∈ name, dotChar ch = true)
    (hnp : '(' ∉ name)
    (hnh : ∀ ch, name.head? = some ch → isWS ch = false)
    (hnl : ∀ ch, name.getLast? = some ch → isWS ch = false)
    (hv : ver ≠ []) (hvc : ∀ ch ∈ ver, verChar ch = true)
    (hi : id ≠ []) (hip : '(' ∉ id) (hic : ')' ∉ id)
    (hih : ∀ ch, id.head? = some ch → isWS ch = false)
    (hil : ∀ ch, id.getLast? = some ch → isWS ch = false) :
    parseLine c (name ++ ' ' :: '(' :: (ver ++ ')' :: ' ' :: '(' :: (id ++ [')'])))
      = some { name := name.asString, id := id.asString, category := c,
               osVersion := some ver.asString }
    ∧ parseLine c (name ++ ' ' :: ' ' :: '(' :: (id ++ [')']))
      = some { name := name.asString, id := id.asString, category := c }
    ∧ matchStandard (name ++ ' ' :: '(' :: (id ++ [')'])) = none := by
  refine ⟨?_, ?_, ?_⟩
  · have hms : matchStandard (name ++ ' ' :: '(' :: (ver ++ ')' :: ' ' :: '(' :: (id ++ [')'])))
        = some (name, some ver, id) := by
      unfold matchStandard
      rw [findStandard_through name _ [] hn hnc hnp hnl,
        matchAfterName_ver ver id hv hvc hi hic]
      simp
    simp only [parseLine, hms, jsTrim_eq_self name hnh hnl, jsTrim_eq_self id hih hil,
      Option.map_some']
  · have hms : matchStandard (name ++ ' ' :: ' ' :: '(' :: (id ++ [')']))
        = some (name, none, id) := by
      unfold matchStandard
      rw [findStandard_through name _ [] hn hnc hnp hnl]
      rw [show (' ' :: ' ' :: '(' :: (id ++ [')'])) = [' ', ' '] ++ '(' :: (id ++ [')'])
        from rfl]
      rw [matchAfterName_nover [' ', ' '] id (by decide) (by decide) hi hic]
      simp
    simp only [parseLine, hms, jsTrim_eq_self name hnh hnl, jsTrim_eq_self id hih hil,
      Option.map_none']
  · unfold matchStandard
    rw [findStandard_through name _ [] hn hnc hnp hnl,
      matchAfterName_singlespace id hic]
    simp only [List.nil_append]
    have hnop : '(' ∉ id ++ [')'] := by
      intro m
      rcases List.mem_append.mp m with m | m
      · exact hip m
      · simp at m
    have s1 : matchAfterName ('(' :: (id ++ [')'])) = none :=
      matchAfterName_nil_ws _ (fun ch h => by
        injection h with h2
        subst h2
        decide)
    have s2 : matchAfterName (id ++ [')']) = none :=
      matchAfterName_none_of_no_paren _ hnop
    have hd1 : dotChar ' ' = true := by decide
    have hd2 : dotChar '(' = true := by decide
    have hstep1 : findStandard name (' ' :: '(' :: (id ++ [')']))
        = findStandard (name ++ [' ']) ('(' :: (id ++ [')'])) := by
      simp only [findStandard, hd1, if_true, reduceIte, s1]
    have hstep2 : findStandard (name ++ [' ']) ('(' :: (id ++ [')']))
        = findStandard (name ++ [' '] ++ ['(']) (id ++ [')']) := by
      simp only [findStandard, hd2, if_true, reduceIte, s2]
    rw [hstep1, hstep2]
    exact findStandard_none_of_no_paren _ _ hnop

/-- C3 witness: the amended grammar theorem applied to the line
`iPhone 15 (17.0) (SIM-1)` under the simulator category, with every
hypothesis evaluated. -/
theorem standard_grammar_amended_witness :
    parseLine Category.simulators
        ("iPhone 15".toList ++ ' ' :: '(' ::
          ("17.0".toList ++ ')' :: ' ' :: '(' :: ("SIM-1".toList ++ [')'])))
      = some { name := "iPhone 15", id := "SIM-1", category := Category.simulators,
               osVersion := some "17.0" } :=
  (standard_grammar_amended Category.simulators "iPhone 15".toList "17.0".toList
    "SIM-1".toList (by decide) (by decide) (by decide)
    (fun ch h => by injection h with h2; subst h2; decide)
    (fun ch h => by injection h with h2; subst h2; decide)
    (by decide) (by decide) (by decide) (by decide) (by decide)
    (fun ch h => by injection h with h2; subst h2; decide)
    (fun ch h => by injection h with h2; subst h2; decide)).1

/-! ### C1/C9: the simulator deduplicator -/

theorem partsGe_refl : ∀ x : List Nat, partsGe x x = true
  | [] => rfl
  | a :: as => by simp [partsGe, partsGe_refl as]

theorem partsGe_nil_right : ∀ x : List Nat, partsGe x [] = true
  | [] => rfl
  | _ :: _ => rfl

theorem partsGe_total : ∀ x y : List Nat, (partsGe x y || partsGe y x) = true
  | [], ys => by
    rw [partsGe_nil_right ys]
    simp
  | x :: xs, [] => by
    rw [partsGe_nil_right (x :: xs)]
    simp
  | a :: as, b :: bs => by
    by_cases hab : a = b
    · subst hab
      simp only [partsGe, if_pos rfl]
      exact partsGe_total as bs
    · rcases Nat.lt_or_ge b a with h | h
      · simp [partsGe, hab, h]
      · have hba : ¬ b = a := fun e => hab (Eq.symm e)
        have h' : a < b := Nat.lt_of_le_of_ne h hab
        simp only [partsGe, if_neg hab, if_neg hba]
        simp [h']

theorem partsGe_trans : ∀ x y z : List Nat,
    partsGe x y = true → partsGe y z = true → partsGe x z = true
  | [], [], z => fun _ h2 => h2
  | [], b :: bs, [] => fun _ _ => rfl
  | [], b :: bs, c :: cs => fun h1 h2 => by
    simp only [partsGe, List.all_cons, Bool.and_eq_true, decide_eq_true_eq] at h1 ⊢
    obtain ⟨hb, hbs⟩ := h1
    subst hb
    simp only [partsGe] at h2
    by_cases hc : c = 0
    · subst hc
      rw [if_pos rfl] at h2
      exact ⟨rfl, by
        have := partsGe_trans [] bs cs (by simpa [partsGe] using hbs) h2
        simpa [partsGe] using this⟩
    · rw [if_neg (fun e => hc e.symm)] at h2
      simp at h2
  | x :: xs, [], [] => fun h1 _ => h1
  | x :: xs, [], c :: cs => fun _ h2 => by
    simp only [partsGe, List.all_cons, Bool.and_eq_true, decide_eq_true_eq] at h2
    obtain ⟨hc, hcs⟩ := h2
    subst hc
    simp only [partsGe]
    by_cases hx : x = 0
    · subst hx
      rw [if_pos rfl]
      exact partsGe_trans xs [] cs (partsGe_nil_right xs) (by simpa [partsGe] using hcs)
    · rw [if_neg hx]
      simp only [decide_eq_true_eq]
      omega
  | x :: xs, y :: ys, [] => fun _ _ => rfl
  | a :: as, b :: bs, c :: cs => fun h1 h2 => by
    simp only [partsGe] at h1 h2 ⊢
    by_cases hab : a = b
    · subst hab
      rw [if_pos rfl] at h1
      by_cases hac : a = c
      · subst hac
        rw [if_pos rfl] at h2 ⊢
        exact partsGe_trans as bs cs h1 h2
      · rw [if_neg hac] at h2 ⊢
        exact h2
    · rw [if_neg hab] at h1
      have hba : b < a := by simpa using h1
      by_cases hbc : b = c
      · subst hbc
        rw [if_neg (by omega)]
        simpa using hba
      · rw [if_neg hbc] at h2
        have hcb : c < b := by simpa using h2
        rw [if_neg (by omega)]
        simp only [decide_eq_true_eq]
        omega

theorem recGe_total (a b : DeviceInfo) : (recGe a b || recGe b a) = true :=
  partsGe_total _ _

theorem recGe_trans (a b c : DeviceInfo) :
    recGe a b = true → recGe b c = true → recGe a c = true :=
  partsGe_trans _ _ _

theorem find?_congr_mem {α : Type} (p q : α → Bool) :
    ∀ l : List α, (∀ a ∈ l, p a = q a) → l.find? p = l.find? q
  | [], _ => rfl
  | a :: t, h => by
    have ha := h a (List.mem_cons_self a t)
    by_cases hp : p a = true
    · rw [List.find?_cons_of_pos t hp, List.find?_cons_of_pos t (ha ▸ hp)]
    · rw [List.find?_cons_of_neg t hp, List.find?_cons_of_neg t (by rw [← ha]; exact hp)]
      exact find?_congr_mem p q t (fun b hb => h b (List.mem_cons_of_mem a hb))

/-- The head of a stable descending sort is the first element of the input
that is maximal (the JS `sort((a, b) => …)[0]` of each model group). -/
theorem head?_mergeSort_find? {α : Type} (le : α → α → Bool)
    (htrans : ∀ (a b c : α), le a b → le b c → le a c)
    (htotal : ∀ (a b : α), le a b || le b a) :
    ∀ l : List α, (l.mergeSort le).head? = l.find? (fun a => l.all (le a ·))
  | [] => by simp
  | x :: t => by
    obtain ⟨l₁, l₂, h1, h2, h3⟩ := List.mergeSort_cons htrans htotal x t
    cases hl1 : l₁ with
    | nil =>
      subst hl1
      rw [List.nil_append] at h1
      have hsorted := List.sorted_mergeSort htrans htotal (x :: t)
      rw [h1] at hsorted
      have hperm : List.Perm ((x :: t).mergeSort le) (x :: t) := List.mergeSort_perm _ le
      rw [h1] at hperm
      have hperm' : List.Perm l₂ t := hperm.cons_inv
      have hmax : ∀ b ∈ x :: t, le x b := by
        intro b hb
        rcases List.mem_cons.mp hb with rfl | hb
        · have := htotal b b
          simpa using this
        · exact List.rel_of_pairwise_cons hsorted (hperm'.mem_iff.mpr hb)
      have hpx : ((x :: t).all (le x ·)) = true := by
        rw [List.all_eq_true]
        intro b hb
        simpa using hmax b hb
      rw [h1, List.find?_cons_of_pos t hpx]
      rfl
    | cons h1h h1t =>
      have hmemh1h : h1h ∈ t := by
        have : h1h ∈ t.mergeSort le := by
          rw [h2, hl1]
          exact List.mem_append_left _ (List.mem_cons_self _ _)
        exact List.mem_mergeSort.mp this
      have hxnot : ¬ ((x :: t).all (le x ·) = true) := by
        intro hall
        have := (List.all_eq_true.mp hall) h1h (List.mem_cons_of_mem x hmemh1h)
        have h3' := h3 h1h (by rw [hl1]; exact List.mem_cons_self _ _)
        simp only [decide_eq_true_eq] at this
        rw [this] at h3'
        exact absurd h3' (by simp)
      have hpred : ∀ a ∈ t, (t.all (le a ·)) = ((x :: t).all (le a ·)) := by
        intro a ha
        by_cases hmax : t.all (le a ·) = true
        · have hax : le a x = true := by
            by_contra hax
            have hxa : le x a = true := by
              have := htotal x a
              rcases Bool.or_eq_true_iff.mp this with h | h
              · exact h
              · exact absurd h hax
            apply hxnot
            rw [List.all_eq_true]
            intro b hb
            rcases List.mem_cons.mp hb with he | hb
            · subst he
              have h0 := htotal b b
              simpa using h0
            · have hab := (List.all_eq_true.mp hmax) b hb
              simp only [decide_eq_true_eq] at hab ⊢
              exact htrans x a b hxa hab
          rw [hmax]
          rw [Eq.comm, List.all_eq_true]
          intro b hb
          rcases List.mem_cons.mp hb with rfl | hb
          · simpa using hax
          · exact (List.all_eq_true.mp hmax) b hb
        · have hmax' : ¬ ((x :: t).all (le a ·) = true) := by
            intro hall
            apply hmax
            rw [List.all_eq_true]
            intro b hb
            exact (List.all_eq_true.mp hall) b (List.mem_cons_of_mem x hb)
          rw [Bool.eq_false_iff.mpr hmax, Bool.eq_false_iff.mpr hmax']
      have hh : ((x :: t).mergeSort le).head? = (t.mergeSort le).head? := by
        rw [h1, h2, hl1]
        rfl
      rw [hh, head?_mergeSort_find? le htrans htotal t,
        List.find?_cons_of_neg t hxnot,
        find?_congr_mem _ _ t hpred]

/-- The deduplicator in its computable first-maximum form: stably sorting a
group in descending version order and taking the head picks the first group
member that compares greater-or-equal to every other member. -/
theorem filterSim_eq_firstMax (sims : List DeviceInfo) :
    filterSimulatorsByHighestOSVersion sims
      = (keysInOrder ((sims.map updateSim).map (fun r => r.modelName.getD ""))).flatMap
          (fun k =>
            ((((sims.map updateSim).filter (fun r => r.modelName.getD "" = k)).find?
              (fun a => ((sims.map updateSim).filter
                (fun r => r.modelName.getD "" = k)).all (fun b => recGe a b)))).toList) := by
  unfold filterSimulatorsByHighestOSVersion
  rw [List.flatMap_def, List.flatMap_def]
  apply congrArg
  apply List.map_congr_left
  intro k _
  set group := (sims.map updateSim).filter (fun r => r.modelName.getD "" = k) with hg
  have hhead := head?_mergeSort_find? recGe recGe_trans recGe_total group
  cases hms : group.mergeSort recGe with
  | nil =>
    rw [hms] at hhead
    rw [← hhead]
    simp [hms]
  | cons w ws =>
    rw [hms] at hhead
    rw [← hhead]
    simp [hms]

theorem mem_keysInOrderGo (k : String) :
    ∀ (l seen : List String), k ∈ keysInOrderGo seen l ↔ (k ∈ l ∧ k ∉ seen)
  | [], seen => by simp [keysInOrderGo]
  | a :: t, seen => by
    by_cases ha : a ∈ seen
    · rw [keysInOrderGo, if_pos ha, mem_keysInOrderGo k t seen]
      constructor
      · rintro ⟨h1, h2⟩
        exact ⟨List.mem_cons_of_mem a h1, h2⟩
      · rintro ⟨h1, h2⟩
        rcases List.mem_cons.mp h1 with he | h1
        · exact absurd (he ▸ ha) h2
        · exact ⟨h1, h2⟩
    · rw [keysInOrderGo, if_neg ha]
      constructor
      · intro h
        rcases List.mem_cons.mp h with he | h
        · exact ⟨he ▸ List.mem_cons_self a t, he ▸ ha⟩
        · have := (mem_keysInOrderGo k t (a :: seen)).mp h
          exact ⟨List.mem_cons_of_mem a this.1,
            fun hs => this.2 (List.mem_cons_of_mem a hs)⟩
      · rintro ⟨h1, h2⟩
        rcases List.mem_cons.mp h1 with he | h1
        · exact he ▸ List.mem_cons_self a _
        · by_cases hk : k = a
          · exact hk ▸ List.mem_cons_self a _
          · exact List.mem_cons_of_mem a ((mem_keysInOrderGo k t (a :: seen)).mpr
              ⟨h1, fun hs => by
                rcases List.mem_cons.mp hs with he | hs
                · exact hk he
                · exact h2 hs⟩)

theorem nodup_keysInOrderGo : ∀ (l seen : List String), (keysInOrderGo seen l).Nodup
  | [], _ => List.nodup_nil
  | a :: t, seen => by
    by_cases ha : a ∈ seen
    · rw [keysInOrderGo, if_pos ha]
      exact nodup_keysInOrderGo t seen
    · rw [keysInOrderGo, if_neg ha]
      refine List.Nodup.cons ?_ (nodup_keysInOrderGo t (a :: seen))
      intro hmem
      exact ((mem_keysInOrderGo a t (a :: seen)).mp hmem).2 (List.mem_cons_self a seen)

theorem mem_keysInOrder (k : String) (l : List String) : k ∈ keysInOrder l ↔ k ∈ l := by
  rw [keysInOrder, mem_keysInOrderGo]
  simp

theorem nodup_keysInOrder (l : List String) : (keysInOrder l).Nodup :=
  nodup_keysInOrderGo l []

theorem length_keysInOrder_eq_dedup (l : List String) :
    (keysInOrder l).length = l.dedup.length := by
  have hperm : List.Perm (keysInOrder l) l.dedup := by
    rw [List.perm_ext_iff_of_nodup (nodup_keysInOrder l) (List.nodup_dedup l)]
    intro a
    rw [mem_keysInOrder, List.mem_dedup]
  exact hperm.length_eq

theorem flatMap_filter_key (k : String) :
    ∀ (ks : List String) (g : String → List DeviceInfo), ks.Nodup →
      (∀ k' ∈ ks, ∀ w ∈ g k', w.modelName.getD "" = k') →
      ((ks.flatMap g).filter (fun r => r.modelName.getD "" = k))
        = if k ∈ ks then g k else []
  | [], g, _, _ => by simp
  | a :: ks', g, hnd, hg => by
    have hnd' : ks'.Nodup := hnd.of_cons
    have hga : ∀ w ∈ g a, w.modelName.getD "" = a :=
      hg a (List.mem_cons_self a ks')
    have hg' : ∀ k' ∈ ks', ∀ w ∈ g k', w.modelName.getD "" = k' :=
      fun k' h => hg k' (List.mem_cons_of_mem a h)
    rw [List.flatMap_cons, List.filter_append, flatMap_filter_key k ks' g hnd' hg']
    by_cases hak : a = k
    · subst hak
      have hfk : (g a).filter (fun r => r.modelName.getD "" = a) = g a := by
        rw [List.filter_eq_self]
        intro w hw
        simp [hga w hw]
      have hnotin : a ∉ ks' := (List.nodup_cons.mp hnd).1
      rw [hfk, if_neg hnotin, if_pos (List.mem_cons_self a ks')]
      simp
    · have hfk : (g a).filter (fun r => r.modelName.getD "" = k) = [] := by
        rw [List.filter_eq_nil_iff]
        intro w hw
        simp [hga w hw, hak]
      rw [hfk]
      by_cases hk : k ∈ ks'
      · rw [if_pos hk, if_pos (List.mem_cons_of_mem a hk)]
        simp
      · rw [if_neg hk, if_neg (by
          intro h
          rcases List.mem_cons.mp h with he | h
          · exact hak he.symm
          · exact hk h)]
        simp

theorem length_flatMap_ones {α β : Type} (g : α → List β) :
    ∀ ks : List α, (∀ k ∈ ks, (g k).length = 1) → (ks.flatMap g).length = ks.length
  | [], _ => rfl
  | a :: t, h => by
    rw [List.flatMap_cons, List.length_append, h a (List.mem_cons_self a t),
      length_flatMap_ones g t (fun k hk => h k (List.mem_cons_of_mem a hk))]
    simp [Nat.add_comm]

theorem group_find?_isSome (sims : List DeviceInfo) (k : String)
    (hne : (sims.map updateSim).filter (fun r => r.modelName.getD "" = k) ≠ []) :
    ∃ w, ((sims.map updateSim).filter (fun r => r.modelName.getD "" = k)).find?
        (fun a => ((sims.map updateSim).filter (fun r => r.modelName.getD "" = k)).all
          (fun b => recGe a b)) = some w := by
  set group := (sims.map updateSim).filter (fun r => r.modelName.getD "" = k) with hg
  have hh := head?_mergeSort_find? recGe recGe_trans recGe_total group
  cases hcase : group.mergeSort recGe with
  | nil =>
    have := congrArg List.length hcase
    rw [List.length_mergeSort] at this
    exact absurd (List.length_eq_zero.mp this) hne
  | cons w ws =>
    rw [hcase] at hh
    exact ⟨w, hh.symm⟩

/-- C1.  For every list of simulator records with well-formed (digit/dot)
`osVersion` fields, the deduplicator returns exactly one record per distinct
derived `modelName` — the output length equals the number of distinct
`modelName` values of the input — and every emitted record's `osVersion` is
component-wise greater than or equal to the extracted version of every input
record in its `modelName` group (missing trailing components read as 0, a
record with no extractable version treated as version `0`). -/
theorem dedup_highest_version (sims : List DeviceInfo)
    (hwf : ∀ s ∈ sims, ∀ v, s.osVersion = some v → ∀ ch ∈ v.toList, verChar ch = true) :
    (filterSimulatorsByHighestOSVersion sims).length
        = ((sims.map (fun s => modelNameOf s.name)).dedup).length
    ∧ ∀ r ∈ filterSimulatorsByHighestOSVersion sims, ∀ s ∈ sims,
        modelNameOf s.name = r.modelName.getD "" →
        partsGe (versionParts (r.osVersion.getD "0"))
          (versionParts (extractOSVersion s)) = true := by
  have hmapkey : (sims.map updateSim).map (fun r => r.modelName.getD "")
      = sims.map (fun s => modelNameOf s.name) := by
    rw [List.map_map]
    exact List.map_congr_left (fun s _ => rfl)
  constructor
  · rw [filterSim_eq_firstMax]
    rw [length_flatMap_ones _ _ ?_]
    · rw [hmapkey, length_keysInOrder_eq_dedup]
    · intro k hk
      have hkmem : k ∈ (sims.map updateSim).map (fun r => r.modelName.getD "") :=
        (mem_keysInOrder k _).mp hk
      obtain ⟨r, hr, hrk⟩ := List.mem_map.mp hkmem
      have hne : (sims.map updateSim).filter (fun r => r.modelName.getD "" = k) ≠ [] := by
        intro hnil
        have := List.filter_eq_nil_iff.mp hnil r hr
        simp [hrk] at this
      obtain ⟨w, hw⟩ := group_find?_isSome sims k hne
      rw [hw]
      rfl
  · intro r hr s hs hkey
    rw [filterSim_eq_firstMax] at hr
    obtain ⟨k, _, hrk⟩ := List.mem_flatMap.mp hr
    have hfind : ((sims.map updateSim).filter (fun x => x.modelName.getD "" = k)).find?
        (fun a => ((sims.map updateSim).filter (fun x => x.modelName.getD "" = k)).all
          (fun b => recGe a b)) = some r := by
      cases hf : ((sims.map updateSim).filter (fun x => x.modelName.getD "" = k)).find?
          (fun a => ((sims.map updateSim).filter (fun x => x.modelName.getD "" = k)).all
            (fun b => recGe a b)) with
      | none => rw [hf] at hrk; simp at hrk
      | some w =>
        rw [hf] at hrk
        simp only [Option.toList_some, List.mem_singleton] at hrk
        subst hrk
        rfl
    have hrmem := List.mem_of_find?_eq_some hfind
    have hrall := List.find?_some hfind
    have hrkey : r.modelName.getD "" = k :=
      of_decide_eq_true (List.mem_filter.mp hrmem).2
    have hsmem : updateSim s ∈ (sims.map updateSim).filter
        (fun x => x.modelName.getD "" = k) := by
      apply List.mem_filter.mpr
      refine ⟨List.mem_map_of_mem updateSim hs, ?_⟩
      have hsk : (updateSim s).modelName.getD "" = modelNameOf s.name := rfl
      rw [decide_eq_true_eq, hsk, hkey, hrkey]
    have hle := List.all_eq_true.mp hrall (updateSim s) hsmem
    simpa [recGe] using hle

/-- Simulator records for the witnesses: the spec's example scenario 2. -/
def simScenA : DeviceInfo :=
  { id := "SIM-1", name := "iPhone 15", category := .simulators, osVersion := some "17.0" }

/-- Second record of example scenario 2. -/
def simScenB : DeviceInfo :=
  { id := "SIM-2", name := "iPhone 15", category := .simulators, osVersion := some "18.4" }

/-- The input list of example scenario 2. -/
def simsScen2 : List DeviceInfo := [simScenA, simScenB]

/-- C1 witness: the deduplication theorem applied to the spec's example
scenario 2 (two `iPhone 15` simulators at 17.0 and 18.4). -/
theorem dedup_highest_version_witness :
    (filterSimulatorsByHighestOSVersion simsScen2).length
      = ((simsScen2.map (fun s => modelNameOf s.name)).dedup).length :=
  (dedup_highest_version simsScen2 (by
    intro s hs v hv
    simp only [simsScen2, simScenA, simScenB, List.mem_cons,
      List.mem_singleton, List.not_mem_nil, or_false] at hs
    rcases hs with rfl | rfl <;> (injection hv with hv2; subst hv2; decide))).1

/-- A tied simulator group: one older record, then two records sharing the
newest version. -/
def simTieA : DeviceInfo :=
  { id := "a", name := "iPhone 15", category := .simulators, osVersion := some "17.0" }

/-- First of the two tied newest records. -/
def simTieB : DeviceInfo :=
  { id := "b", name := "iPhone 15", category := .simulators, osVersion := some "18.0" }

/-- Second of the two tied newest records. -/
def simTieC : DeviceInfo :=
  { id := "c", name := "iPhone 15", category := .simulators, osVersion := some "18.0" }

/-- One model group containing a version tie. -/
def simsTie : List DeviceInfo := [simTieA, simTieB, simTieC]

/-- C9 counterexample.  In the group `[a@17.0, b@18.0, c@18.0]` (all
`iPhone 15`, containing two records with identical `osVersion`), the emitted
winner is `b` — the first record among those with the maximal version — and
not `a`, the first-encountered record of the group in input order, refuting
the claim's description of the winner. -/
theorem dedup_tie_counterexample :
    filterSimulatorsByHighestOSVersion simsTie = [updateSim simTieB]
    ∧ ((simsTie.map updateSim).filter (fun r => r.modelName.getD "" = "iPhone 15"))
        = simsTie.map updateSim
    ∧ (simsTie.map updateSim).head? = some (updateSim simTieA)
    ∧ (updateSim simTieB).osVersion = (updateSim simTieC).osVersion
    ∧ updateSim simTieB ≠ updateSim simTieA := by
  refine ⟨?_, by decide, by decide, by decide, by decide⟩
  rw [filterSim_eq_firstMax]
  decide

/-- C9 amended.  For every model group (in particular one containing two or
more records with identical `osVersion`), exactly one output record is
emitted — never zero, never two — and the emitted winner is the
first-encountered record in input order among those of the group attaining
the maximal `osVersion` (the stable descending sort keeps the first maximal
record at the head). -/
theorem dedup_tie_amended (sims : List DeviceInfo) (k : String)
    (hwf : ∀ s ∈ sims, ∀ v, s.osVersion = some v → ∀ ch ∈ v.toList, verChar ch = true) :
    ((filterSimulatorsByHighestOSVersion sims).filter (fun r => r.modelName.getD "" = k))
      = (((sims.map updateSim).filter (fun r => r.modelName.getD "" = k)).find?
          (fun a => ((sims.map updateSim).filter (fun r => r.modelName.getD "" = k)).all
            (fun b => recGe a b))).toList
    ∧ ((sims.map updateSim).filter (fun r => r.modelName.getD "" = k) ≠ [] →
        ((filterSimulatorsByHighestOSVersion sims).filter
          (fun r => r.modelName.getD "" = k)).length = 1) := by
  have hkeyw : ∀ k' ∈ keysInOrder ((sims.map updateSim).map (fun r => r.modelName.getD "")),
      ∀ w ∈ (((sims.map updateSim).filter (fun r => r.modelName.getD "" = k')).find?
          (fun a => ((sims.map updateSim).filter (fun r => r.modelName.getD "" = k')).all
            (fun b => recGe a b))).toList,
        w.modelName.getD "" = k' := by
    intro k' _ w hw
    cases hf : (((sims.map updateSim).filter (fun r => r.modelName.getD "" = k')).find?
        (fun a => ((sims.map updateSim).filter (fun r => r.modelName.getD "" = k')).all
          (fun b => recGe a b))) with
    | none => rw [hf] at hw; simp at hw
    | some u =>
      rw [hf] at hw
      simp only [Option.toList_some, List.mem_singleton] at hw
      subst hw
      exact of_decide_eq_true (List.mem_filter.mp (List.mem_of_find?_eq_some hf)).2
  have hmain : ((filterSimulatorsByHighestOSVersion sims).filter
      (fun r => r.modelName.getD "" = k))
      = (((sims.map updateSim).filter (fun r => r.modelName.getD "" = k)).find?
          (fun a => ((sims.map updateSim).filter (fun r => r.modelName.getD "" = k)).all
            (fun b => recGe a b))).toList := by
    rw [filterSim_eq_firstMax,
      flatMap_filter_key k _ _ (nodup_keysInOrder _) hkeyw]
    by_cases hk : k ∈ keysInOrder ((sims.map updateSim).map (fun r => r.modelName.getD ""))
    · rw [if_pos hk]
    · rw [if_neg hk]
      have hgroup : (sims.map updateSim).filter (fun r => r.modelName.getD "" = k) = [] := by
        rw [List.filter_eq_nil_iff]
        intro r hr hkr
        apply hk
        rw [mem_keysInOrder]
        have : r.modelName.getD "" = k := of_decide_eq_true hkr
        exact this ▸ List.mem_map_of_mem _ hr
      rw [hgroup]
      rfl
  refine ⟨hmain, fun hne => ?_⟩
  rw [hmain]
  obtain ⟨w, hw⟩ := group_find?_isSome sims k hne
  rw [hw]
  rfl

/-- C9 witness: the amended tie theorem applied to the tied group: the
`iPhone 15` group of `simsTie` is non-empty, and exactly one record is
emitted for it. -/
theorem dedup_tie_amended_witness :
    ((filterSimulatorsByHighestOSVersion simsTie).filter
      (fun r => r.modelName.getD "" = "iPhone 15")).length = 1 :=
  (dedup_tie_amended simsTie "iPhone 15" (by
    intro s hs v hv
    simp only [simsTie, simTieA, simTieB, simTieC, List.mem_cons,
      List.mem_singleton, List.not_mem_nil, or_false] at hs
    rcases hs with rfl | rfl | rfl <;> (injection hv with hv2; subst hv2; decide))).2
    (by decide)

end RNControl
